import Mathlib

/-!
Shallow embedding of the Socket.io chat server of `src/server.js`.

The server keeps two pieces of mutable state: `connectedUsers`, a JS `Map`
from socket id to username, modelled here as an association list kept in
insertion order with the JS `Map` update discipline (`set` on an existing key
updates in place, on a fresh key appends), and `takenUsernames`, a JS `Set`
of claimed names, modelled as a duplicate-free list in insertion order.

Each socket event handler becomes a pure function from the current state and
the event arguments to the new state together with the list of emissions it
performs, in order: `socket.emit` is a unicast to the sender, `io.emit` a
broadcast to every connected socket, `socket.broadcast.emit` a broadcast to
every connected socket except the sender.  `Date.now()` and
`new Date().toISOString()` are passed in as explicit parameters.
-/

/-- A payload carried by one emission of the server. -/
inductive Payload where
  | text (s : String)
  | presence (username : String) (userCount : Nat) (users : List String)
  | message (id : String) (username : String) (body : String) (timestamp : String)
  deriving DecidableEq

/-- One emission performed by a handler: `socket.emit`, `io.emit`, or
`socket.broadcast.emit` in the source. -/
inductive Output where
  | unicast (sid : String) (event : String) (payload : Payload)
  | broadcastAll (event : String) (payload : Payload)
  | broadcastOthers (sender : String) (event : String) (payload : Payload)
  deriving DecidableEq

/-- The server's mutable state: `connectedUsers` and `takenUsernames` of
`src/server.js`. -/
structure ServerState where
  connectedUsers : List (String × String)
  takenUsernames : List String
  deriving DecidableEq

/-- The state at server start: both collections empty. -/
def initState : ServerState := ⟨[], []⟩

/-- JS `String.prototype.trim`: remove leading and trailing whitespace.
Computed on the character list so that the kernel can evaluate it. -/
def jsTrim (s : String) : String :=
  ⟨((s.data.dropWhile Char.isWhitespace).reverse.dropWhile Char.isWhitespace).reverse⟩

/-- JS `String.prototype.toLowerCase`: lower-case every character.
Computed on the character list so that the kernel can evaluate it. -/
def jsToLower (s : String) : String :=
  ⟨s.data.map Char.toLower⟩

/-- `Map.get` of JS: the value of the first entry with the given key. -/
def mapGet (m : List (String × String)) (k : String) : Option String :=
  match m with
  | [] => none
  | (kk, v) :: rest => if kk = k then some v else mapGet rest k

/-- `Map.set` of JS: update in place when the key is present, append
otherwise. -/
def mapSet (m : List (String × String)) (k v : String) : List (String × String) :=
  match m with
  | [] => [(k, v)]
  | (kk, vv) :: rest => if kk = k then (kk, v) :: rest else (kk, vv) :: mapSet rest k v

/-- `Map.delete` of JS: remove the entry with the given key. -/
def mapDelete (m : List (String × String)) (k : String) : List (String × String) :=
  m.filter (fun p => p.1 != k)

/-- `Set.add` of JS: append the element when it is not yet present. -/
def setAdd (s : List String) (x : String) : List String :=
  if x ∈ s then s else s ++ [x]

/-- `Set.delete` of JS: remove the element. -/
def setDelete (s : List String) (x : String) : List String :=
  s.erase x

/-- `Array.from(connectedUsers.values())` of the source: the usernames of
the registry in insertion order. -/
def values (st : ServerState) : List String :=
  st.connectedUsers.map Prod.snd

/-- Whether an emission reaches a given recipient, for a given list of
connected socket ids: a unicast reaches only its target, `io.emit` every
connected socket, `socket.broadcast.emit` every connected socket except the
sender. -/
def deliversTo (connected : List String) (recipient : String) : Output → Bool
  | .unicast sid _ _ => recipient == sid
  | .broadcastAll _ _ => connected.contains recipient
  | .broadcastOthers sender _ _ => connected.contains recipient && recipient != sender

/-- The `user-join` handler (src/server.js lines 50-85). -/
def userJoin (st : ServerState) (sid username : String) : ServerState × List Output :=
  let trimmedUsername := jsTrim username
  if trimmedUsername = "" then
    (st, [.unicast sid "join-error" (.text "Username cannot be empty")])
  else
    let lowerUsername := jsToLower trimmedUsername
    let isTaken := st.takenUsernames.any (fun name => jsToLower name == lowerUsername)
    if isTaken then
      (st, [.unicast sid "join-error" (.text "Username is already taken. Please choose another.")])
    else
      let connectedUsers := mapSet st.connectedUsers sid trimmedUsername
      let takenUsernames := setAdd st.takenUsernames trimmedUsername
      (⟨connectedUsers, takenUsernames⟩,
       [.unicast sid "join-success" (.text trimmedUsername),
        .broadcastAll "user-joined"
          (.presence trimmedUsername connectedUsers.length (connectedUsers.map Prod.snd))])

/-- The `chat-message` handler (src/server.js lines 91-120).  `nowMs` stands
for `Date.now()` and `nowIso` for `new Date().toISOString()`. -/
def chatMessage (st : ServerState) (sid message : String) (nowMs : Nat) (nowIso : String) :
    ServerState × List Output :=
  match mapGet st.connectedUsers sid with
  | none => (st, [.unicast sid "error" (.text "You must join the chat first")])
  | some username =>
    let trimmedMessage := jsTrim message
    if trimmedMessage = "" then
      (st, [])
    else
      (st, [.broadcastAll "new-message"
        (.message (toString nowMs ++ "-" ++ sid) username trimmedMessage nowIso)])

/-- The `typing` handler (src/server.js lines 126-132). -/
def typing (st : ServerState) (sid : String) : ServerState × List Output :=
  match mapGet st.connectedUsers sid with
  | some username => (st, [.broadcastOthers sid "user-typing" (.text username)])
  | none => (st, [])

/-- The `stop-typing` handler (src/server.js lines 138-143). -/
def stopTyping (st : ServerState) (sid : String) : ServerState × List Output :=
  match mapGet st.connectedUsers sid with
  | some username => (st, [.broadcastOthers sid "user-stop-typing" (.text username)])
  | none => (st, [])

/-- The `disconnect` handler (src/server.js lines 149-168). -/
def serverDisconnect (st : ServerState) (sid : String) : ServerState × List Output :=
  match mapGet st.connectedUsers sid with
  | some username =>
    let connectedUsers := mapDelete st.connectedUsers sid
    let takenUsernames := setDelete st.takenUsernames username
    (⟨connectedUsers, takenUsernames⟩,
     [.broadcastAll "user-left"
       (.presence username connectedUsers.length (connectedUsers.map Prod.snd))])
  | none => (st, [])

/-- One inbound event, with the wall-clock arguments a chat message reads. -/
inductive Event where
  | join (sid username : String)
  | chat (sid message : String) (nowMs : Nat) (nowIso : String)
  | typing (sid : String)
  | stopTyping (sid : String)
  | disconnect (sid : String)
  deriving DecidableEq

/-- Dispatch one event to its handler. -/
def step (st : ServerState) : Event → ServerState × List Output
  | .join sid username => userJoin st sid username
  | .chat sid message nowMs nowIso => chatMessage st sid message nowMs nowIso
  | .typing sid => typing st sid
  | .stopTyping sid => stopTyping st sid
  | .disconnect sid => serverDisconnect st sid

/-- Run a sequence of events from a state, keeping only the final state. -/
def runFrom (st : ServerState) : List Event → ServerState
  | [] => st
  | e :: rest => runFrom (step st e).1 rest

/-- A state is reachable when some event sequence leads to it from the
initial state. -/
def Reachable (st : ServerState) : Prop :=
  ∃ evs : List Event, runFrom initState evs = st

/-- The socket ids registered in `connectedUsers` are pairwise distinct —
the key-uniqueness discipline of a JS `Map`. -/
def keysNodup (st : ServerState) : Prop :=
  (st.connectedUsers.map Prod.fst).Nodup

/-- The registered usernames are pairwise distinct under case-insensitive
comparison. -/
def ciDistinct (st : ServerState) : Prop :=
  (values st).Pairwise (fun a b => jsToLower a ≠ jsToLower b)

/-- Every registered username is recorded in `takenUsernames`. -/
def valuesTaken (st : ServerState) : Prop :=
  ∀ v ∈ values st, v ∈ st.takenUsernames

/-- `takenUsernames` holds exactly the registered usernames. -/
def dirEq (st : ServerState) : Prop :=
  ∀ n, n ∈ st.takenUsernames ↔ n ∈ values st

/-- The structural invariant the server maintains from start-up through any
event: unique keys, duplicate-free name set, case-insensitively distinct
registered names, and every registered name recorded as taken. -/
def StateInv (st : ServerState) : Prop :=
  keysNodup st ∧ st.takenUsernames.Nodup ∧ ciDistinct st ∧ valuesTaken st

/-- Whether an event is allowed in a rename-free run from the given state: a
join request must come from a socket that is not yet registered. -/
def joinFresh (st : ServerState) : Event → Bool
  | .join sid _ => mapGet st.connectedUsers sid == none
  | _ => true

/-- An event sequence contains no join request from a socket that is
already registered at the moment the request is processed. -/
def noRejoin (st : ServerState) : List Event → Bool
  | [] => true
  | e :: rest => joinFresh st e && noRejoin (step st e).1 rest

/-- A name that sits in `takenUsernames` while no registered username
matches it case-insensitively: the situation a re-join leaves behind. -/
def Orphaned (n : String) (st : ServerState) : Prop :=
  n ∈ st.takenUsernames ∧ ∀ v ∈ values st, jsToLower v ≠ jsToLower n

/-! ### Lemmas about the JS `Map` and `Set` embeddings -/

theorem mapGet_mem {m : List (String × String)} {k v : String}
    (h : mapGet m k = some v) : (k, v) ∈ m := by
  induction m with
  | nil => simp [mapGet] at h
  | cons p rest ih =>
    obtain ⟨kk, vv⟩ := p
    by_cases hk : kk = k
    · subst hk
      simp [mapGet] at h
      simp [h]
    · simp [mapGet, hk] at h
      exact List.mem_cons_of_mem _ (ih h)

theorem mapGet_eq_none {m : List (String × String)} {k : String} :
    mapGet m k = none ↔ k ∉ m.map Prod.fst := by
  induction m with
  | nil => simp [mapGet]
  | cons p rest ih =>
    obtain ⟨kk, vv⟩ := p
    by_cases hk : kk = k
    · subst hk; simp [mapGet]
    · simp [mapGet, hk, ih, Ne.symm hk]

theorem mapSet_fresh {m : List (String × String)} {k v : String}
    (h : mapGet m k = none) : mapSet m k v = m ++ [(k, v)] := by
  induction m with
  | nil => simp [mapSet]
  | cons p rest ih =>
    obtain ⟨kk, vv⟩ := p
    by_cases hk : kk = k
    · subst hk; simp [mapGet] at h
    · simp only [mapGet, if_neg hk] at h
      simp [mapSet, hk, ih h]

theorem mapSet_keys {m : List (String × String)} {k v : String}
    (h : k ∈ m.map Prod.fst) :
    (mapSet m k v).map Prod.fst = m.map Prod.fst := by
  induction m with
  | nil => simp at h
  | cons p rest ih =>
    obtain ⟨kk, vv⟩ := p
    by_cases hk : kk = k
    · simp [mapSet, hk]
    · have hr : k ∈ rest.map Prod.fst := by
        rw [List.map_cons] at h
        rcases List.mem_cons.mp h with h | h
        · exact absurd h.symm hk
        · exact h
      simp [mapSet, hk, ih hr]

theorem mem_values_mapSet {m : List (String × String)} {k v x : String}
    (h : x ∈ (mapSet m k v).map Prod.snd) : x ∈ m.map Prod.snd ∨ x = v := by
  induction m with
  | nil =>
    simp [mapSet] at h
    exact Or.inr h
  | cons p rest ih =>
    obtain ⟨kk, vv⟩ := p
    by_cases hk : kk = k
    · simp only [mapSet, if_pos hk, List.map_cons, List.mem_cons] at h
      rcases h with h | h
      · exact Or.inr h
      · exact Or.inl (by rw [List.map_cons]; exact List.mem_cons_of_mem _ h)
    · simp only [mapSet, if_neg hk, List.map_cons, List.mem_cons] at h
      rcases h with h | h
      · exact Or.inl (by rw [List.map_cons]; exact List.mem_cons.mpr (Or.inl h))
      · rcases ih h with h1 | h1
        · exact Or.inl (by rw [List.map_cons]; exact List.mem_cons_of_mem _ h1)
        · exact Or.inr h1

theorem mem_mapSet {m : List (String × String)} {k v : String}
    {p : String × String} (hk : (m.map Prod.fst).Nodup) (h : p ∈ mapSet m k v) :
    p = (k, v) ∨ (p ∈ m ∧ p.1 ≠ k) := by
  induction m with
  | nil =>
    simp [mapSet] at h
    exact Or.inl h
  | cons q rest ih =>
    obtain ⟨kk, vv⟩ := q
    rw [List.map_cons, List.nodup_cons] at hk
    by_cases hkk : kk = k
    · subst hkk
      simp only [mapSet, if_pos rfl] at h
      rcases List.mem_cons.mp h with h | h
      · exact Or.inl h
      · refine Or.inr ⟨List.mem_cons_of_mem _ h, fun hpk => ?_⟩
        have hm : p.1 ∈ rest.map Prod.fst := List.mem_map_of_mem Prod.fst h
        exact hk.1 (hpk ▸ hm)
    · simp only [mapSet, if_neg hkk] at h
      rcases List.mem_cons.mp h with h | h
      · exact Or.inr ⟨by simp [h], by simp [h, hkk]⟩
      · rcases ih hk.2 h with h1 | h1
        · exact Or.inl h1
        · exact Or.inr ⟨List.mem_cons_of_mem _ h1.1, h1.2⟩

theorem mapGet_mapSet_self {m : List (String × String)} {k v : String} :
    mapGet (mapSet m k v) k = some v := by
  induction m with
  | nil => simp [mapSet, mapGet]
  | cons p rest ih =>
    obtain ⟨kk, vv⟩ := p
    by_cases hk : kk = k <;> simp [mapSet, mapGet, hk, ih]

theorem mapGet_mapDelete_self {m : List (String × String)} {k : String} :
    mapGet (mapDelete m k) k = none := by
  induction m with
  | nil => rfl
  | cons p rest ih =>
    obtain ⟨kk, vv⟩ := p
    by_cases hk : kk = k
    · simpa [mapDelete, List.filter_cons, hk] using ih
    · simpa [mapDelete, List.filter_cons, hk, mapGet] using ih

theorem mem_mapDelete {m : List (String × String)} {k : String}
    {p : String × String} : p ∈ mapDelete m k ↔ p ∈ m ∧ p.1 ≠ k := by
  simp [mapDelete, List.mem_filter]

theorem values_mapDelete_sublist {m : List (String × String)} {k : String} :
    List.Sublist ((mapDelete m k).map Prod.snd) (m.map Prod.snd) :=
  List.Sublist.map Prod.snd (List.filter_sublist m)

theorem keys_mapDelete_sublist {m : List (String × String)} {k : String} :
    List.Sublist ((mapDelete m k).map Prod.fst) (m.map Prod.fst) :=
  List.Sublist.map Prod.fst (List.filter_sublist m)

theorem keys_nodup_inj {m : List (String × String)}
    (hk : (m.map Prod.fst).Nodup) {k x y : String}
    (h1 : (k, x) ∈ m) (h2 : (k, y) ∈ m) : x = y := by
  induction m with
  | nil => simp at h1
  | cons p rest ih =>
    obtain ⟨kk, vv⟩ := p
    rw [List.map_cons, List.nodup_cons] at hk
    rcases List.mem_cons.mp h1 with h1 | h1 <;> rcases List.mem_cons.mp h2 with h2 | h2
    · rw [Prod.mk.injEq] at h1 h2
      exact h1.2.trans h2.2.symm
    · exfalso
      rw [Prod.mk.injEq] at h1
      have hm : k ∈ rest.map Prod.fst := List.mem_map_of_mem Prod.fst h2
      exact hk.1 (h1.1 ▸ hm)
    · exfalso
      rw [Prod.mk.injEq] at h2
      have hm : k ∈ rest.map Prod.fst := List.mem_map_of_mem Prod.fst h1
      exact hk.1 (h2.1 ▸ hm)
    · exact ih hk.2 h1 h2

theorem pairwise_entries {R : String → String → Prop}
    (hsymm : ∀ a b, R a b → R b a) {m : List (String × String)}
    (hR : (m.map Prod.snd).Pairwise R) {k1 v1 k2 v2 : String}
    (h1 : (k1, v1) ∈ m) (h2 : (k2, v2) ∈ m) (hne : k1 ≠ k2) : R v1 v2 := by
  induction m with
  | nil => simp at h1
  | cons p rest ih =>
    obtain ⟨kk, vv⟩ := p
    rw [List.map_cons] at hR
    rcases List.pairwise_cons.mp hR with ⟨hhead, htail⟩
    rcases List.mem_cons.mp h1 with h1 | h1 <;> rcases List.mem_cons.mp h2 with h2 | h2
    · exfalso
      rw [Prod.mk.injEq] at h1 h2
      exact hne (h1.1.trans h2.1.symm)
    · rw [Prod.mk.injEq] at h1
      have hm : v2 ∈ rest.map Prod.snd := List.mem_map_of_mem Prod.snd h2
      exact h1.2 ▸ hhead v2 hm
    · rw [Prod.mk.injEq] at h2
      have hm : v1 ∈ rest.map Prod.snd := List.mem_map_of_mem Prod.snd h1
      exact hsymm _ _ (h2.2 ▸ hhead v1 hm)
    · exact ih htail h1 h2

theorem mem_setAdd {s : List String} {x y : String} :
    x ∈ setAdd s y ↔ x ∈ s ∨ x = y := by
  unfold setAdd
  split
  · rename_i h
    constructor
    · exact Or.inl
    · rintro (hx | rfl)
      · exact hx
      · exact h
  · simp

theorem nodup_append_singleton {α : Type} {l : List α} {x : α}
    (h : l.Nodup) (hx : x ∉ l) : (l ++ [x]).Nodup := by
  simp [List.nodup_append, h, hx]

theorem setAdd_nodup {s : List String} {y : String} (h : s.Nodup) :
    (setAdd s y).Nodup := by
  unfold setAdd
  split
  · exact h
  · rename_i hy
    exact nodup_append_singleton h hy

theorem pairwise_values_mapSet {R : String → String → Prop}
    {m : List (String × String)} {k v : String}
    (hR : (m.map Prod.snd).Pairwise R)
    (hv : ∀ x ∈ m.map Prod.snd, R v x ∧ R x v) :
    ((mapSet m k v).map Prod.snd).Pairwise R := by
  induction m with
  | nil => simp [mapSet]
  | cons p rest ih =>
    obtain ⟨kk, vv⟩ := p
    rw [List.map_cons] at hR
    rcases List.pairwise_cons.mp hR with ⟨hhead, htail⟩
    by_cases hk : kk = k
    · simp only [mapSet, if_pos hk, List.map_cons]
      refine List.pairwise_cons.mpr ⟨?_, htail⟩
      intro x hx
      exact (hv x (by simp [hx])).1
    · simp only [mapSet, if_neg hk, List.map_cons]
      refine List.pairwise_cons.mpr ⟨?_, ?_⟩
      · intro x hx
        rcases mem_values_mapSet hx with hx | hx
        · exact hhead x hx
        · exact hx ▸ (hv vv (by simp)).2
      · exact ih htail (fun x hx => hv x (by simp [hx]))

/-! ### Characterizations of the handler branches -/

theorem userJoin_empty {st : ServerState} {sid username : String}
    (h : jsTrim username = "") :
    userJoin st sid username =
      (st, [Output.unicast sid "join-error"
        (Payload.text "Username cannot be empty")]) := by
  unfold userJoin
  simp [h]

theorem userJoin_taken {st : ServerState} {sid username : String}
    (h : jsTrim username ≠ "")
    (ht : ∃ n ∈ st.takenUsernames, jsToLower n = jsToLower (jsTrim username)) :
    userJoin st sid username =
      (st, [Output.unicast sid "join-error"
        (Payload.text "Username is already taken. Please choose another.")]) := by
  unfold userJoin
  obtain ⟨n, hn, he⟩ := ht
  have hany : st.takenUsernames.any
      (fun name => jsToLower name == jsToLower (jsTrim username)) = true :=
    List.any_eq_true.mpr ⟨n, hn, by simp [he]⟩
  simp [h, hany]

theorem userJoin_success {st : ServerState} {sid username : String}
    (h : jsTrim username ≠ "")
    (ht : ∀ n ∈ st.takenUsernames, jsToLower n ≠ jsToLower (jsTrim username)) :
    userJoin st sid username =
      (⟨mapSet st.connectedUsers sid (jsTrim username),
        setAdd st.takenUsernames (jsTrim username)⟩,
       [Output.unicast sid "join-success" (Payload.text (jsTrim username)),
        Output.broadcastAll "user-joined"
          (Payload.presence (jsTrim username)
            (mapSet st.connectedUsers sid (jsTrim username)).length
            ((mapSet st.connectedUsers sid (jsTrim username)).map Prod.snd))]) := by
  unfold userJoin
  have hany : st.takenUsernames.any
      (fun name => jsToLower name == jsToLower (jsTrim username)) = false := by
    rw [List.any_eq_false]
    intro n hn
    simp [ht n hn]
  simp [h, hany]

theorem chatMessage_unauth {st : ServerState} {sid message : String}
    {nowMs : Nat} {nowIso : String}
    (h : mapGet st.connectedUsers sid = none) :
    chatMessage st sid message nowMs nowIso =
      (st, [Output.unicast sid "error"
        (Payload.text "You must join the chat first")]) := by
  unfold chatMessage
  rw [h]

theorem chatMessage_empty {st : ServerState} {sid username message : String}
    {nowMs : Nat} {nowIso : String}
    (h : mapGet st.connectedUsers sid = some username)
    (he : jsTrim message = "") :
    chatMessage st sid message nowMs nowIso = (st, []) := by
  unfold chatMessage
  rw [h]
  simp [he]

theorem chatMessage_broadcast {st : ServerState} {sid username message : String}
    {nowMs : Nat} {nowIso : String}
    (h : mapGet st.connectedUsers sid = some username)
    (he : jsTrim message ≠ "") :
    chatMessage st sid message nowMs nowIso =
      (st, [Output.broadcastAll "new-message"
        (Payload.message (toString nowMs ++ "-" ++ sid) username
          (jsTrim message) nowIso)]) := by
  unfold chatMessage
  rw [h]
  simp [he]

theorem typing_auth {st : ServerState} {sid username : String}
    (h : mapGet st.connectedUsers sid = some username) :
    typing st sid =
      (st, [Output.broadcastOthers sid "user-typing" (Payload.text username)]) := by
  unfold typing
  rw [h]

theorem typing_unauth {st : ServerState} {sid : String}
    (h : mapGet st.connectedUsers sid = none) :
    typing st sid = (st, []) := by
  unfold typing
  rw [h]

theorem stopTyping_auth {st : ServerState} {sid username : String}
    (h : mapGet st.connectedUsers sid = some username) :
    stopTyping st sid =
      (st, [Output.broadcastOthers sid "user-stop-typing" (Payload.text username)]) := by
  unfold stopTyping
  rw [h]

theorem stopTyping_unauth {st : ServerState} {sid : String}
    (h : mapGet st.connectedUsers sid = none) :
    stopTyping st sid = (st, []) := by
  unfold stopTyping
  rw [h]

theorem serverDisconnect_none {st : ServerState} {sid : String}
    (h : mapGet st.connectedUsers sid = none) :
    serverDisconnect st sid = (st, []) := by
  unfold serverDisconnect
  rw [h]

theorem serverDisconnect_some {st : ServerState} {sid u : String}
    (h : mapGet st.connectedUsers sid = some u) :
    serverDisconnect st sid =
      (⟨mapDelete st.connectedUsers sid, setDelete st.takenUsernames u⟩,
       [Output.broadcastAll "user-left"
         (Payload.presence u (mapDelete st.connectedUsers sid).length
           ((mapDelete st.connectedUsers sid).map Prod.snd))]) := by
  unfold serverDisconnect
  rw [h]

theorem chatMessage_fst (st : ServerState) (sid message : String)
    (nowMs : Nat) (nowIso : String) :
    (chatMessage st sid message nowMs nowIso).1 = st := by
  unfold chatMessage
  cases mapGet st.connectedUsers sid
  · rfl
  · simp only
    split
    · rfl
    · rfl

theorem typing_fst (st : ServerState) (sid : String) : (typing st sid).1 = st := by
  unfold typing
  cases mapGet st.connectedUsers sid <;> rfl

theorem stopTyping_fst (st : ServerState) (sid : String) :
    (stopTyping st sid).1 = st := by
  unfold stopTyping
  cases mapGet st.connectedUsers sid <;> rfl

/-! ### Preservation of the structural invariant -/

theorem stateInv_userJoin (st : ServerState) (sid username : String)
    (h : StateInv st) : StateInv (userJoin st sid username).1 := by
  by_cases he : jsTrim username = ""
  · rw [userJoin_empty he]
    exact h
  · by_cases htk : ∃ n ∈ st.takenUsernames, jsToLower n = jsToLower (jsTrim username)
    · rw [userJoin_taken he htk]
      exact h
    · push_neg at htk
      rw [userJoin_success he htk]
      obtain ⟨hkeys, hnd, hci, hvt⟩ := h
      refine ⟨?_, setAdd_nodup hnd, ?_, ?_⟩
      · unfold keysNodup at *
        by_cases hsid : mapGet st.connectedUsers sid = none
        · rw [mapSet_fresh hsid, List.map_append]
          exact nodup_append_singleton hkeys (mapGet_eq_none.mp hsid)
        · have : ∃ u, mapGet st.connectedUsers sid = some u := by
            cases hget : mapGet st.connectedUsers sid
            · exact absurd hget hsid
            · exact ⟨_, rfl⟩
          obtain ⟨u, hu⟩ := this
          have hmem : sid ∈ st.connectedUsers.map Prod.fst :=
            List.mem_map_of_mem Prod.fst (mapGet_mem hu)
          rw [mapSet_keys hmem]
          exact hkeys
      · unfold ciDistinct values at *
        refine pairwise_values_mapSet hci ?_
        intro x hx
        have hxt : jsToLower x ≠ jsToLower (jsTrim username) := htk x (hvt x hx)
        exact ⟨Ne.symm hxt, hxt⟩
      · intro v hv
        rcases mem_values_mapSet hv with hv | hv
        · exact mem_setAdd.mpr (Or.inl (hvt v hv))
        · exact mem_setAdd.mpr (Or.inr hv)

theorem stateInv_serverDisconnect (st : ServerState) (sid : String)
    (h : StateInv st) : StateInv (serverDisconnect st sid).1 := by
  obtain ⟨hkeys, hnd, hci, hvt⟩ := h
  cases hu : mapGet st.connectedUsers sid with
  | none =>
    rw [serverDisconnect_none hu]
    exact ⟨hkeys, hnd, hci, hvt⟩
  | some u =>
    rw [serverDisconnect_some hu]
    refine ⟨?_, hnd.erase u, ?_, ?_⟩
    · exact List.Nodup.sublist keys_mapDelete_sublist hkeys
    · exact List.Pairwise.sublist values_mapDelete_sublist hci
    · intro v hv
      obtain ⟨p, hmem, hp⟩ := List.mem_map.mp hv
      have hpd := mem_mapDelete.mp hmem
      have hvm : v ∈ values st := hp ▸ List.mem_map_of_mem Prod.snd hpd.1
      have hp1 : (p.1, v) ∈ st.connectedUsers := by
        have heq : (p.1, v) = p := Prod.ext rfl hp.symm
        rw [heq]
        exact hpd.1
      have hvne : jsToLower v ≠ jsToLower u :=
        pairwise_entries (fun a b hab => hab.symm) hci hp1 (mapGet_mem hu) hpd.2
      exact (List.mem_erase_of_ne fun hvu => hvne (congrArg jsToLower hvu)).mpr
        (hvt v hvm)

theorem stateInv_step (st : ServerState) (e : Event) (h : StateInv st) :
    StateInv (step st e).1 := by
  cases e with
  | join sid username => exact stateInv_userJoin st sid username h
  | chat sid message nowMs nowIso =>
    show StateInv (chatMessage st sid message nowMs nowIso).1
    rw [chatMessage_fst]
    exact h
  | typing sid =>
    show StateInv (typing st sid).1
    rw [typing_fst]
    exact h
  | stopTyping sid =>
    show StateInv (stopTyping st sid).1
    rw [stopTyping_fst]
    exact h
  | disconnect sid => exact stateInv_serverDisconnect st sid h

theorem stateInv_runFrom (st : ServerState) (evs : List Event)
    (h : StateInv st) : StateInv (runFrom st evs) := by
  induction evs generalizing st with
  | nil => exact h
  | cons e rest ih => exact ih _ (stateInv_step st e h)

theorem stateInv_init : StateInv initState := by
  refine ⟨?_, ?_, ?_, ?_⟩ <;> simp [initState, keysNodup, ciDistinct, valuesTaken, values]

theorem stateInv_reachable (st : ServerState) (h : Reachable st) : StateInv st := by
  obtain ⟨evs, rfl⟩ := h
  exact stateInv_runFrom initState evs stateInv_init

/-! ### Preservation of Registry/Directory agreement on rename-free runs -/

theorem dirEq_userJoin_fresh (st : ServerState) (sid username : String)
    (hd : dirEq st) (hfresh : mapGet st.connectedUsers sid = none) :
    dirEq (userJoin st sid username).1 := by
  by_cases he : jsTrim username = ""
  · rw [userJoin_empty he]
    exact hd
  · by_cases htk : ∃ n ∈ st.takenUsernames, jsToLower n = jsToLower (jsTrim username)
    · rw [userJoin_taken he htk]
      exact hd
    · push_neg at htk
      rw [userJoin_success he htk]
      intro n
      show n ∈ setAdd st.takenUsernames (jsTrim username) ↔
        n ∈ (mapSet st.connectedUsers sid (jsTrim username)).map Prod.snd
      rw [mem_setAdd, mapSet_fresh hfresh, List.map_append]
      simp only [List.map_cons, List.map_nil, List.mem_append,
        List.mem_singleton]
      rw [hd n]
      unfold values
      exact Iff.rfl

theorem dirEq_serverDisconnect (st : ServerState) (sid : String)
    (h : StateInv st) (hd : dirEq st) : dirEq (serverDisconnect st sid).1 := by
  obtain ⟨hkeys, hnd, hci, hvt⟩ := h
  cases hu : mapGet st.connectedUsers sid with
  | none =>
    rw [serverDisconnect_none hu]
    exact hd
  | some u =>
    rw [serverDisconnect_some hu]
    intro n
    show n ∈ setDelete st.takenUsernames u ↔
      n ∈ (mapDelete st.connectedUsers sid).map Prod.snd
    unfold setDelete
    rw [List.Nodup.mem_erase_iff hnd]
    constructor
    · rintro ⟨hnu, hn⟩
      have hnv : n ∈ values st := (hd n).mp hn
      obtain ⟨p, hpmem, hp⟩ := List.mem_map.mp hnv
      have hpk : p.1 ≠ sid := by
        intro hpk
        have hpe : (sid, n) ∈ st.connectedUsers := by
          have heq : (p.1, n) = p := Prod.ext rfl hp.symm
          rw [← hpk, heq]
          exact hpmem
        exact hnu (keys_nodup_inj hkeys hpe (mapGet_mem hu))
      exact List.mem_map.mpr ⟨p, mem_mapDelete.mpr ⟨hpmem, hpk⟩, hp⟩
    · intro hn
      obtain ⟨p, hpmem, hp⟩ := List.mem_map.mp hn
      have hpd := mem_mapDelete.mp hpmem
      have hnv : n ∈ values st := hp ▸ List.mem_map_of_mem Prod.snd hpd.1
      refine ⟨?_, (hd n).mpr hnv⟩
      have hp1 : (p.1, n) ∈ st.connectedUsers := by
        have heq : (p.1, n) = p := Prod.ext rfl hp.symm
        rw [heq]
        exact hpd.1
      have hci2 := pairwise_entries (fun a b hab => hab.symm) hci hp1
        (mapGet_mem hu) hpd.2
      exact fun hnu => hci2 (congrArg jsToLower hnu)

theorem dirEq_step (st : ServerState) (e : Event)
    (h : StateInv st) (hd : dirEq st) (hfresh : joinFresh st e = true) :
    dirEq (step st e).1 := by
  cases e with
  | join sid username =>
    have hnone : mapGet st.connectedUsers sid = none := by
      simpa [joinFresh] using hfresh
    exact dirEq_userJoin_fresh st sid username hd hnone
  | chat sid message nowMs nowIso =>
    show dirEq (chatMessage st sid message nowMs nowIso).1
    rw [chatMessage_fst]
    exact hd
  | typing sid =>
    show dirEq (typing st sid).1
    rw [typing_fst]
    exact hd
  | stopTyping sid =>
    show dirEq (stopTyping st sid).1
    rw [stopTyping_fst]
    exact hd
  | disconnect sid => exact dirEq_serverDisconnect st sid ⟨h.1, h.2.1, h.2.2.1, h.2.2.2⟩ hd

theorem dirEq_runFrom (st : ServerState) (evs : List Event)
    (h : StateInv st) (hd : dirEq st) (hnr : noRejoin st evs = true) :
    dirEq (runFrom st evs) := by
  induction evs generalizing st with
  | nil => exact hd
  | cons e rest ih =>
    simp only [noRejoin, Bool.and_eq_true] at hnr
    exact ih _ (stateInv_step st e h) (dirEq_step st e h hd hnr.1) hnr.2

/-! ### Once a name is orphaned it stays orphaned -/

theorem orphaned_userJoin (n : String) (st : ServerState) (sid username : String)
    (h : Orphaned n st) : Orphaned n (userJoin st sid username).1 := by
  obtain ⟨h1, h2⟩ := h
  by_cases he : jsTrim username = ""
  · rw [userJoin_empty he]
    exact ⟨h1, h2⟩
  · by_cases htk : ∃ m ∈ st.takenUsernames, jsToLower m = jsToLower (jsTrim username)
    · rw [userJoin_taken he htk]
      exact ⟨h1, h2⟩
    · push_neg at htk
      rw [userJoin_success he htk]
      refine ⟨mem_setAdd.mpr (Or.inl h1), ?_⟩
      intro v hv
      rcases mem_values_mapSet hv with hv | hv
      · exact h2 v hv
      · subst hv
        exact Ne.symm (htk n h1)

theorem orphaned_serverDisconnect (n : String) (st : ServerState) (sid : String)
    (h : Orphaned n st) : Orphaned n (serverDisconnect st sid).1 := by
  obtain ⟨h1, h2⟩ := h
  cases hu : mapGet st.connectedUsers sid with
  | none =>
    rw [serverDisconnect_none hu]
    exact ⟨h1, h2⟩
  | some u =>
    rw [serverDisconnect_some hu]
    constructor
    · have hnu : n ≠ u := by
        intro he
        have hvm : u ∈ values st := List.mem_map_of_mem Prod.snd (mapGet_mem hu)
        exact h2 u hvm (congrArg jsToLower he.symm)
      exact (List.mem_erase_of_ne hnu).mpr h1
    · intro v hv
      exact h2 v (values_mapDelete_sublist.subset hv)

theorem orphaned_step (n : String) (st : ServerState) (e : Event)
    (h : Orphaned n st) : Orphaned n (step st e).1 := by
  cases e with
  | join sid username => exact orphaned_userJoin n st sid username h
  | chat sid message nowMs nowIso =>
    show Orphaned n (chatMessage st sid message nowMs nowIso).1
    rw [chatMessage_fst]
    exact h
  | typing sid =>
    show Orphaned n (typing st sid).1
    rw [typing_fst]
    exact h
  | stopTyping sid =>
    show Orphaned n (stopTyping st sid).1
    rw [stopTyping_fst]
    exact h
  | disconnect sid => exact orphaned_serverDisconnect n st sid h

theorem orphaned_runFrom (n : String) (st : ServerState) (evs : List Event)
    (h : Orphaned n st) : Orphaned n (runFrom st evs) := by
  induction evs generalizing st with
  | nil => exact h
  | cons e rest ih => exact ih _ (orphaned_step n st e h)

/-! ### The claims -/

/-- Claim C1 is false as stated: after the event sequence
join("A", "alice"); join("A", "bob") — a re-join by an already-registered
connection — the name "alice" is still in the Name Directory
`takenUsernames` although it is no longer a value of the Registry
`connectedUsers`. -/
theorem c1_rejoin_counterexample :
    "alice" ∈ (runFrom initState [Event.join "A" "alice",
      Event.join "A" "bob"]).takenUsernames ∧
    "alice" ∉ values (runFrom initState [Event.join "A" "alice",
      Event.join "A" "bob"]) := by
  decide

/-- Claim C1 (amended): after any sequence of events in which no join
request is processed from an already-registered connection, the Name
Directory `takenUsernames` holds exactly the display-name values of the
Registry `connectedUsers`. -/
theorem c1_registry_directory_consistency (evs : List Event)
    (h : noRejoin initState evs = true) :
    ∀ n, n ∈ (runFrom initState evs).takenUsernames ↔
      n ∈ values (runFrom initState evs) :=
  dirEq_runFrom initState evs stateInv_init
    (fun n => by simp [initState, values]) h

/-- Witness for C1 at a concrete rename-free run. -/
theorem c1_registry_directory_consistency_witness :
    noRejoin initState [Event.join "A" "alice", Event.join "B" "bob",
      Event.disconnect "A"] = true ∧
    ("alice" ∈ (runFrom initState [Event.join "A" "alice",
        Event.join "B" "bob", Event.disconnect "A"]).takenUsernames ↔
      "alice" ∈ values (runFrom initState [Event.join "A" "alice",
        Event.join "B" "bob", Event.disconnect "A"])) :=
  ⟨by decide, c1_registry_directory_consistency _ (by decide) "alice"⟩

/-- Claim C2: in every reachable state, two distinct connections registered
in `connectedUsers` carry display names that differ even after
lower-casing both. -/
theorem c2_uniqueness_invariant (st : ServerState) (h : Reachable st)
    (s t ns nt : String) (hs : mapGet st.connectedUsers s = some ns)
    (ht : mapGet st.connectedUsers t = some nt) (hst : s ≠ t) :
    jsToLower ns ≠ jsToLower nt := by
  have hinv := stateInv_reachable st h
  exact pairwise_entries (fun a b hab => hab.symm) hinv.2.2.1
    (mapGet_mem hs) (mapGet_mem ht) hst

/-- Witness for C2 at a concrete reachable state with two users. -/
theorem c2_uniqueness_invariant_witness :
    Reachable (runFrom initState [Event.join "A" "alice", Event.join "B" "Bob"]) ∧
    jsToLower "alice" ≠ jsToLower "Bob" :=
  ⟨⟨[Event.join "A" "alice", Event.join "B" "Bob"], rfl⟩,
    c2_uniqueness_invariant
      (runFrom initState [Event.join "A" "alice", Event.join "B" "Bob"])
      ⟨[Event.join "A" "alice", Event.join "B" "Bob"], rfl⟩
      "A" "B" "alice" "Bob" (by decide) (by decide) (by decide)⟩

/-- Claim C3: `user-join` trims the requested name; if the trimmed result is
empty it unicasts the empty-name error and changes nothing; if some taken
name matches case-insensitively it unicasts the name-taken error; otherwise
it registers the trimmed name in both Registry and Directory and its first
emission is the `join-success` unicast carrying exactly the trimmed name. -/
theorem c3_join_functional_correctness (st : ServerState) (sid username : String) :
    (jsTrim username = "" →
      userJoin st sid username =
        (st, [Output.unicast sid "join-error"
          (Payload.text "Username cannot be empty")])) ∧
    (jsTrim username ≠ "" →
      (∃ n ∈ st.takenUsernames, jsToLower n = jsToLower (jsTrim username)) →
      userJoin st sid username =
        (st, [Output.unicast sid "join-error"
          (Payload.text "Username is already taken. Please choose another.")])) ∧
    (jsTrim username ≠ "" →
      (∀ n ∈ st.takenUsernames, jsToLower n ≠ jsToLower (jsTrim username)) →
      mapGet (userJoin st sid username).1.connectedUsers sid = some (jsTrim username) ∧
      jsTrim username ∈ (userJoin st sid username).1.takenUsernames ∧
      (userJoin st sid username).2.head? =
        some (Output.unicast sid "join-success" (Payload.text (jsTrim username)))) := by
  refine ⟨fun he => userJoin_empty he, fun he ht => userJoin_taken he ht, ?_⟩
  intro he ht
  rw [userJoin_success he ht]
  exact ⟨mapGet_mapSet_self, mem_setAdd.mpr (Or.inr rfl), rfl⟩

/-- Witness for C3 at a concrete successful join of " alice ". -/
theorem c3_join_functional_correctness_witness :
    jsTrim " alice " ≠ "" ∧
    mapGet (userJoin initState "A" " alice ").1.connectedUsers "A" = some "alice" := by
  refine ⟨by decide, ?_⟩
  have h := (c3_join_functional_correctness initState "A" " alice ").2.2
    (by decide) (by intro n hn; simp [initState] at hn)
  have ht : jsTrim " alice " = "alice" := by decide
  rw [← ht]
  exact h.1

/-- Claim C4: a rejected join (empty trimmed name or case-insensitive
collision) leaves both Registry and Name Directory unchanged and emits only
a single `join-error` unicast to the requesting connection — no broadcast. -/
theorem c4_join_rejection_no_mutation (st : ServerState) (sid username : String)
    (h : jsTrim username = "" ∨
      ∃ n ∈ st.takenUsernames, jsToLower n = jsToLower (jsTrim username)) :
    (userJoin st sid username).1 = st ∧
    ∃ reason : String, (userJoin st sid username).2 =
      [Output.unicast sid "join-error" (Payload.text reason)] := by
  by_cases he : jsTrim username = ""
  · rw [userJoin_empty he]
    exact ⟨rfl, _, rfl⟩
  · rcases h with h | h
    · exact absurd h he
    · rw [userJoin_taken he h]
      exact ⟨rfl, _, rfl⟩

/-- Witness for C4 at a concrete case-insensitive collision. -/
theorem c4_join_rejection_no_mutation_witness :
    (jsTrim "ALICE" = "" ∨
      ∃ n ∈ (⟨[("A", "alice")], ["alice"]⟩ : ServerState).takenUsernames,
        jsToLower n = jsToLower (jsTrim "ALICE")) ∧
    (userJoin ⟨[("A", "alice")], ["alice"]⟩ "B" "ALICE").1 =
      (⟨[("A", "alice")], ["alice"]⟩ : ServerState) :=
  ⟨by decide, (c4_join_rejection_no_mutation _ "B" "ALICE" (by decide)).1⟩

/-- Claim C5 is false as stated: a typing event from the unauthenticated
connection "C" produces no emission at all — in particular no error unicast
to the sender, contrary to the claim that every unauthenticated chat or
typing event results in an error unicast. -/
theorem c5_unauth_typing_counterexample :
    mapGet initState.connectedUsers "C" = none ∧
    typing initState "C" = (initState, []) ∧
    stopTyping initState "C" = (initState, []) := by
  decide

/-- Claim C5 (amended): a chat message from an unauthenticated connection
yields exactly one error unicast to the sender, no broadcast and no state
change; typing events from an unauthenticated connection are silently
ignored — no emission at all and no state change.  Either way the
connection stays usable. -/
theorem c5_unauthenticated_events (st : ServerState) (sid : String)
    (h : mapGet st.connectedUsers sid = none) :
    (∀ (message : String) (nowMs : Nat) (nowIso : String),
      chatMessage st sid message nowMs nowIso =
        (st, [Output.unicast sid "error"
          (Payload.text "You must join the chat first")])) ∧
    typing st sid = (st, []) ∧
    stopTyping st sid = (st, []) :=
  ⟨fun _ _ _ => chatMessage_unauth h, typing_unauth h, stopTyping_unauth h⟩

/-- Witness for C5 at a concrete unauthenticated chat message. -/
theorem c5_unauthenticated_events_witness :
    mapGet initState.connectedUsers "D" = none ∧
    chatMessage initState "D" "hi" 0 "t" =
      (initState, [Output.unicast "D" "error"
        (Payload.text "You must join the chat first")]) :=
  ⟨by decide, (c5_unauthenticated_events initState "D" (by decide)).1 "hi" 0 "t"⟩

/-- Claim C6: for an authenticated sender, a chat message whose body trims
to the empty string is silently ignored (no emission, no state change);
a non-empty trimmed body leaves the state unchanged and is broadcast as a
single `new-message` event carrying the trimmed body, delivered to every
connected socket — in particular every registered one and the sender. -/
theorem c6_chat_message_behavior (st : ServerState) (sid username message : String)
    (nowMs : Nat) (nowIso : String)
    (h : mapGet st.connectedUsers sid = some username) :
    (jsTrim message = "" → chatMessage st sid message nowMs nowIso = (st, [])) ∧
    (jsTrim message ≠ "" →
      (chatMessage st sid message nowMs nowIso).1 = st ∧
      (chatMessage st sid message nowMs nowIso).2 =
        [Output.broadcastAll "new-message"
          (Payload.message (toString nowMs ++ "-" ++ sid) username
            (jsTrim message) nowIso)] ∧
      ∀ (connected : List String) (r : String), r ∈ connected →
        deliversTo connected r (Output.broadcastAll "new-message"
          (Payload.message (toString nowMs ++ "-" ++ sid) username
            (jsTrim message) nowIso)) = true) := by
  constructor
  · intro he
    exact chatMessage_empty h he
  · intro he
    rw [chatMessage_broadcast h he]
    refine ⟨rfl, rfl, ?_⟩
    intro connected r hr
    simp [deliversTo, hr]

/-- Witness for C6 at a concrete whitespace-only message. -/
theorem c6_chat_message_behavior_witness :
    mapGet (⟨[("A", "alice")], ["alice"]⟩ : ServerState).connectedUsers "A" =
      some "alice" ∧
    jsTrim " " = "" ∧
    chatMessage ⟨[("A", "alice")], ["alice"]⟩ "A" " " 5 "ts" =
      (⟨[("A", "alice")], ["alice"]⟩, []) :=
  ⟨by decide, by decide,
    (c6_chat_message_behavior _ "A" "alice" " " 5 "ts" (by decide)).1 (by decide)⟩

/-- Claim C7: leave (the disconnect cleanup) is idempotent — on a
never-joined connection it changes nothing and emits nothing, running it a
second time on the same connection changes nothing and emits no duplicate
departure broadcast, and after it runs the connection is no longer
registered. -/
theorem c7_leave_idempotent (st : ServerState) (sid : String) :
    (mapGet st.connectedUsers sid = none → serverDisconnect st sid = (st, [])) ∧
    serverDisconnect (serverDisconnect st sid).1 sid =
      ((serverDisconnect st sid).1, []) ∧
    (∀ u, mapGet st.connectedUsers sid = some u →
      mapGet (serverDisconnect st sid).1.connectedUsers sid = none) := by
  refine ⟨fun h => serverDisconnect_none h, ?_, ?_⟩
  · cases hu : mapGet st.connectedUsers sid with
    | none =>
      rw [serverDisconnect_none hu]
      exact serverDisconnect_none hu
    | some u =>
      rw [serverDisconnect_some hu]
      exact serverDisconnect_none mapGet_mapDelete_self
  · intro u hu
    rw [serverDisconnect_some hu]
    exact mapGet_mapDelete_self

/-- Witness for C7 at a concrete joined connection. -/
theorem c7_leave_idempotent_witness :
    mapGet (⟨[("A", "alice")], ["alice"]⟩ : ServerState).connectedUsers "A" =
      some "alice" ∧
    mapGet (serverDisconnect ⟨[("A", "alice")], ["alice"]⟩ "A").1.connectedUsers "A" =
      none :=
  ⟨by decide, (c7_leave_idempotent _ "A").2.2 "alice" (by decide)⟩

/-- Claim C8: disconnecting a joined connection removes its Registry entry
and its name from the Name Directory and broadcasts one `user-left` event
carrying the departed name, the post-removal count and the post-removal
names, delivered to every connected socket; disconnecting a never-joined
connection emits nothing. -/
theorem c8_disconnect_cleanup (st : ServerState) (sid : String) :
    (∀ u, mapGet st.connectedUsers sid = some u → st.takenUsernames.Nodup →
      mapGet (serverDisconnect st sid).1.connectedUsers sid = none ∧
      u ∉ (serverDisconnect st sid).1.takenUsernames ∧
      (serverDisconnect st sid).2 =
        [Output.broadcastAll "user-left"
          (Payload.presence u (values (serverDisconnect st sid).1).length
            (values (serverDisconnect st sid).1))] ∧
      ∀ (connected : List String) (r : String), r ∈ connected →
        deliversTo connected r (Output.broadcastAll "user-left"
          (Payload.presence u (values (serverDisconnect st sid).1).length
            (values (serverDisconnect st sid).1))) = true) ∧
    (mapGet st.connectedUsers sid = none → (serverDisconnect st sid).2 = []) := by
  constructor
  · intro u hu hnd
    rw [serverDisconnect_some hu]
    refine ⟨mapGet_mapDelete_self, ?_, ?_, ?_⟩
    · intro hmem
      rcases (List.Nodup.mem_erase_iff hnd).mp hmem with ⟨hne, _⟩
      exact hne rfl
    · simp [values, List.length_map]
    · intro connected r hr
      simp [deliversTo, hr]
  · intro hu
    rw [serverDisconnect_none hu]

/-- Witness for C8 at a concrete two-user state. -/
theorem c8_disconnect_cleanup_witness :
    mapGet (⟨[("A", "alice"), ("B", "bob")],
      ["alice", "bob"]⟩ : ServerState).connectedUsers "A" = some "alice" ∧
    (serverDisconnect ⟨[("A", "alice"), ("B", "bob")],
      ["alice", "bob"]⟩ "A").2 =
      [Output.broadcastAll "user-left" (Payload.presence "alice" 1 ["bob"])] := by
  refine ⟨by decide, ?_⟩
  have h := ((c8_disconnect_cleanup ⟨[("A", "alice"), ("B", "bob")],
    ["alice", "bob"]⟩ "A").1 "alice" (by decide) (by decide)).2.2.1
  rw [h]
  decide

/-- Claim C9: typing and stop-typing events from an authenticated connection
each produce one broadcast-to-others event carrying the sender's display
name; the sender never receives its own typing event, while every other
connected socket does. -/
theorem c9_typing_exclusion (st : ServerState) (sid username : String)
    (h : mapGet st.connectedUsers sid = some username) :
    typing st sid =
      (st, [Output.broadcastOthers sid "user-typing" (Payload.text username)]) ∧
    stopTyping st sid =
      (st, [Output.broadcastOthers sid "user-stop-typing" (Payload.text username)]) ∧
    (∀ connected : List String,
      deliversTo connected sid
        (Output.broadcastOthers sid "user-typing" (Payload.text username)) = false ∧
      deliversTo connected sid
        (Output.broadcastOthers sid "user-stop-typing" (Payload.text username)) = false) ∧
    ∀ (connected : List String) (r : String), r ∈ connected → r ≠ sid →
      deliversTo connected r
        (Output.broadcastOthers sid "user-typing" (Payload.text username)) = true ∧
      deliversTo connected r
        (Output.broadcastOthers sid "user-stop-typing" (Payload.text username)) = true := by
  refine ⟨typing_auth h, stopTyping_auth h, ?_, ?_⟩
  · intro connected
    constructor <;> simp [deliversTo]
  · intro connected r hr hne
    constructor <;> simp [deliversTo, hr, hne]

/-- Witness for C9 at a concrete authenticated typing event. -/
theorem c9_typing_exclusion_witness :
    mapGet (⟨[("A", "alice")], ["alice"]⟩ : ServerState).connectedUsers "A" =
      some "alice" ∧
    typing ⟨[("A", "alice")], ["alice"]⟩ "A" =
      (⟨[("A", "alice")], ["alice"]⟩,
        [Output.broadcastOthers "A" "user-typing" (Payload.text "alice")]) :=
  ⟨by decide, (c9_typing_exclusion _ "A" "alice" (by decide)).1⟩

/-- Claim C10: when an already-registered connection issues a second join
with a name that passes validation, the Registry entry is overwritten to
the new name while the old name stays in the Name Directory; the old name
then remains orphaned — in the Directory, matched by no registered name —
after every further event sequence, disconnects included, and any join
request matching it case-insensitively is rejected with the name-taken
error. -/
theorem c10_rejoin_name_leak (st : ServerState) (sid oldName req : String)
    (hinv : StateInv st)
    (hold : mapGet st.connectedUsers sid = some oldName)
    (hne : jsTrim req ≠ "")
    (hfree : ∀ n ∈ st.takenUsernames, jsToLower n ≠ jsToLower (jsTrim req)) :
    mapGet (userJoin st sid req).1.connectedUsers sid = some (jsTrim req) ∧
    Orphaned oldName (userJoin st sid req).1 ∧
    (∀ evs : List Event, Orphaned oldName (runFrom (userJoin st sid req).1 evs)) ∧
    (∀ (st2 : ServerState) (sid2 req2 : String), Orphaned oldName st2 →
      jsTrim req2 ≠ "" → jsToLower (jsTrim req2) = jsToLower oldName →
      userJoin st2 sid2 req2 =
        (st2, [Output.unicast sid2 "join-error"
          (Payload.text "Username is already taken. Please choose another.")])) := by
  obtain ⟨hkeys, hnd, hci, hvt⟩ := hinv
  have holdmem : oldName ∈ st.takenUsernames :=
    hvt oldName (List.mem_map_of_mem Prod.snd (mapGet_mem hold))
  have horph : Orphaned oldName (userJoin st sid req).1 := by
    rw [userJoin_success hne hfree]
    refine ⟨mem_setAdd.mpr (Or.inl holdmem), ?_⟩
    intro v hv
    obtain ⟨p, hpmem, hp⟩ := List.mem_map.mp hv
    rcases mem_mapSet hkeys hpmem with hpe | hpe
    · have hveq : v = jsTrim req := by rw [← hp, hpe]
      rw [hveq]
      exact Ne.symm (hfree oldName holdmem)
    · have hp1 : (p.1, v) ∈ st.connectedUsers := by
        have heq : (p.1, v) = p := Prod.ext rfl hp.symm
        rw [heq]
        exact hpe.1
      exact pairwise_entries (fun a b hab => hab.symm) hci hp1
        (mapGet_mem hold) hpe.2
  refine ⟨?_, horph, ?_, ?_⟩
  · rw [userJoin_success hne hfree]
    exact mapGet_mapSet_self
  · intro evs
    exact orphaned_runFrom oldName _ evs horph
  · intro st2 sid2 req2 horph2 hne2 hlow
    exact userJoin_taken hne2 ⟨oldName, horph2.1, hlow.symm⟩

/-- Witness for C10: "A" renames from "alice" to "bob"; "alice" stays
orphaned even after "A" disconnects. -/
theorem c10_rejoin_name_leak_witness :
    StateInv (⟨[("A", "alice")], ["alice"]⟩ : ServerState) ∧
    mapGet (userJoin ⟨[("A", "alice")], ["alice"]⟩ "A" "bob").1.connectedUsers "A" =
      some "bob" ∧
    Orphaned "alice" (runFrom (userJoin ⟨[("A", "alice")], ["alice"]⟩ "A" "bob").1
      [Event.disconnect "A"]) := by
  have hinv : StateInv (⟨[("A", "alice")], ["alice"]⟩ : ServerState) := by
    unfold StateInv keysNodup ciDistinct valuesTaken values
    exact ⟨by decide, by decide, by decide, by decide⟩
  have h := c10_rejoin_name_leak ⟨[("A", "alice")], ["alice"]⟩ "A" "alice" "bob"
    hinv (by decide) (by decide) (by decide)
  have ht : jsTrim "bob" = "bob" := by decide
  exact ⟨hinv, by rw [← ht]; exact h.1, h.2.2.1 [Event.disconnect "A"]⟩
